import Mathlib

/-!
Shallow embedding of the metadata aggregation engine of the repository
(`lib/hachoir_metadata/metadata.py`, `lib/hachoir_metadata/archive.py`,
`lib/hachoir_core/field/vector.py`), together with proofs about the
spec's claims on it.

Python exceptions are made explicit: a method that can raise returns an
`Except PyErr` value (or a pair whose second component is the raised
error, when the pre-raise state matters).  Python floats are embedded as
exact rationals (`Rat`), strings as `String`, `None`-able arguments as
`Option`.
-/

/-- Python exception classes that appear in the embedded code.
`keyError` and `indexError` are `LookupError` subclasses. -/
inductive PyErr where
  | keyError : PyErr
  | valueError : PyErr
  | indexError : PyErr
  | uniqKeyError : PyErr
deriving DecidableEq

/-- Raw values stored in a metadata document (the embedding covers the
value kinds the claims exercise: text, integers and float ratios,
the latter embedded as exact rationals). -/
inductive Value where
  | vstr : String → Value
  | vint : Int → Value
  | vrat : Rat → Value
deriving DecidableEq

/-- Python truthiness of a raw value (`0`, `0.0` and `""` are falsy). -/
def pyTruthy : Value → Bool
  | .vstr s => s ≠ ""
  | .vint n => n ≠ 0
  | .vrat q => q ≠ 0

/-- Python `float(x)` conversion for the numeric values the code divides
(strings never reach the division in the embedded code paths). -/
def valueToRat : Value → Rat
  | .vstr _ => 0
  | .vint n => (n : Rat)
  | .vrat q => q

/-- Modelled from the spec: the display-text computation of a value item
(the "derived display text", computed by code of the repository that is
not under src/): any fixed total conversion of the raw value to text. -/
def valueToText : Value → String
  | .vstr s => s
  | .vint n => toString n
  | .vrat q => toString q.num ++ "/" ++ toString q.den

/-- One extracted datum: a raw value and its derived display text
(spec §3 "Typed value item"). -/
structure ValueItem where
  value : Value
  text : String
deriving DecidableEq

/-- One declared metadata field: key, human label (`description`),
priority and the ordered deduplicated value items
(`hachoir_metadata.metadata_item.Data`, consumed by `metadata.py`). -/
structure Data where
  key : String
  description : String
  priority : Int
  values : List ValueItem
deriving DecidableEq

/-- Modelled from the spec: `Data.add` of
`hachoir_metadata.metadata_item` (not under src/): converts the value
into a value item (raw value plus computed display text) and inserts it,
skipping insertion if an equal raw value already exists under the key
(set-like semantics keyed by value equality). -/
def Data.add (d : Data) (v : Value) : Data :=
  if d.values.any (fun it => it.value = v) then d
  else { d with values := d.values ++ [⟨v, valueToText v⟩] }

/-- Modelled from the spec: truthiness of a `Data` field — a field is
truthy iff it has at least one value (spec §4.1 "Truthiness"). -/
def Data.nonzero (d : Data) : Bool := !d.values.isEmpty

/-- Modelled from the spec: the bounds of the priority ranking
(`MIN_PRIORITY`/`MAX_PRIORITY` of `hachoir_metadata.metadata_item`, not
under src/); every registered field priority lies between them. -/
def MIN_PRIORITY : Int := 100

/-- Modelled from the spec: see `MIN_PRIORITY`. -/
def MAX_PRIORITY : Int := 999

/-- Modelled from the spec: the quality constants of
`hachoir_metadata.metadata_item` (not under src/): quality is a knob in
[0,1], `QUALITY_FASTEST` its minimum, `QUALITY_BEST` its maximum. -/
def QUALITY_FASTEST : Rat := 0

/-- Modelled from the spec: see `QUALITY_FASTEST`. -/
def QUALITY_BEST : Rat := 1

/-- Modelled from the spec: see `QUALITY_FASTEST`. -/
def QUALITY_NORMAL : Rat := 1 / 2

/-- A metadata document (`Metadata` of `metadata.py`): the declared
fields (`__data`, keyed collection of `Data`), the header title and the
quality knob. -/
structure Metadata where
  data : List Data
  header : String
  quality : Rat
deriving DecidableEq

/-- `Metadata.__init__`: quality is inherited unmodified from the parent
document if one exists, otherwise clamped into [0,1]; the schema
(`registerAllItems`) is the injected table of declared fields. -/
def Metadata.init (parent : Option Metadata) (quality : Rat)
    (schema : List Data) (header : String) : Metadata :=
  { data := schema, header := header,
    quality :=
      match parent with
      | some p => p.quality
      | none => min (max 0 quality) 1 }

/-- `Metadata.__setattr__`: raises `KeyError` (before any mutation) if
the key is not declared, otherwise adds the value to the field with
duplicates skipped.  Returns the post-call document and the raised
error, if any. -/
def Metadata.setattr (m : Metadata) (key : String) (v : Value) :
    Metadata × Option PyErr :=
  if m.data.any (fun d => d.key = key) then
    ({ m with data := m.data.map (fun d => if d.key = key then Data.add d v else d) },
     none)
  else (m, some PyErr.keyError)

/-- `Metadata.setHeader`. -/
def Metadata.setHeader (m : Metadata) (text : String) : Metadata :=
  { m with header := text }

/-- `Metadata.getItems`: the value items of a key, `ValueError` if the
key is not declared. -/
def Metadata.getItems (m : Metadata) (key : String) :
    Except PyErr (List ValueItem) :=
  match m.data.find? (fun d => d.key = key) with
  | some d => .ok d.values
  | none => .error PyErr.valueError

/-- Python list indexing `l[i]` with negative-index support; `none`
stands for the `IndexError` case. -/
def pyListGet {α : Type} (l : List α) (i : Int) : Option α :=
  if 0 ≤ i then l.get? i.toNat
  else if 0 ≤ (l.length : Int) + i then l.get? ((l.length : Int) + i).toNat
  else none

/-- The exception classes caught by `Metadata.getItem`
(`except (LookupError, ValueError)`). -/
def isCaughtLookup : PyErr → Bool
  | .keyError => true
  | .valueError => true
  | .indexError => true
  | .uniqKeyError => false

/-- `Metadata.getItem`: `self.getItems(key)[index]` with `LookupError`
and `ValueError` caught and turned into `None`. -/
def Metadata.getItem (m : Metadata) (key : String) (index : Int) :
    Except PyErr (Option ValueItem) :=
  match Metadata.getItems m key with
  | .error e => if isCaughtLookup e then .ok none else .error e
  | .ok items =>
    match pyListGet items index with
    | some it => .ok (some it)
    | none => .ok none

/-- `Metadata.has`: at least one value item under the key (raises like
`getItems` if the key is undeclared). -/
def Metadata.has (m : Metadata) (key : String) : Except PyErr Bool :=
  match Metadata.getItems m key with
  | .ok items => .ok (decide (1 ≤ items.length))
  | .error e => .error e

/-- `Metadata.get`: raw value at the index, the default if the item is
absent and a default was supplied, `ValueError` otherwise. -/
def Metadata.get (m : Metadata) (key : String) (dflt : Option Value)
    (index : Int) : Except PyErr Value :=
  match Metadata.getItem m key index with
  | .error e => .error e
  | .ok none =>
    match dflt with
    | none => .error PyErr.valueError
    | some d => .ok d
  | .ok (some it) => .ok it.value

/-- `Metadata.getValues`: the raw values of a key, `ValueError` if the
key is not declared. -/
def Metadata.getValues (m : Metadata) (key : String) :
    Except PyErr (List Value) :=
  match m.data.find? (fun d => d.key = key) with
  | some d => .ok (d.values.map (fun it => it.value))
  | none => .error PyErr.valueError

/-- `Metadata.getText`: the display text at the index, the default
(possibly `None`) if absent. -/
def Metadata.getText (m : Metadata) (key : String) (dflt : Option String)
    (index : Int) : Except PyErr (Option String) :=
  match Metadata.getItem m key index with
  | .error e => .error e
  | .ok (some it) => .ok (some it.text)
  | .ok none => .ok dflt

/-- `Metadata.__nonzero__`: some declared field has a value. -/
def Metadata.nonzero (m : Metadata) : Bool := m.data.any Data.nonzero

/-- Modelled from the spec: insertion step of the stable priority sort
(see `sortData`). -/
def insertData (d : Data) : List Data → List Data
  | [] => [d]
  | e :: rest =>
    if d.priority ≤ e.priority then d :: e :: rest else e :: insertData d rest

/-- Modelled from the spec: `sorted(self)` over the document's fields
uses the stable sort of `hachoir_core.compatibility` together with the
`Data` priority comparison of `hachoir_metadata.metadata_item` (both in
code not under src/): fields are traversed in a stable
priority-then-declaration order.  Implemented as a stable insertion sort
on the priority. -/
def sortData : List Data → List Data
  | [] => []
  | d :: rest => insertData d (sortData rest)

/-- The lines exported for one field: one line per value item,
`"<prefix><label-or-key>: <text>"` (the loop body of
`Metadata.exportPlaintext`; a field without values contributes no
line). -/
def dataLines (human : Bool) (lp : String) (d : Data) : List String :=
  d.values.map (fun item =>
    lp ++ (if human then d.description else d.key) ++ ": " ++
      (if human then item.text else valueToText item.value))

/-- The `for data in sorted(self)` loop of `Metadata.exportPlaintext`:
stops at the first field whose priority exceeds the cutoff, otherwise
appends the field's lines. -/
def exportLoop (prio : Int) (human : Bool) (lp : String) :
    List Data → List String
  | [] => []
  | d :: rest =>
    if prio < d.priority then []
    else dataLines human lp d ++ exportLoop prio human lp rest

/-- `Metadata.exportPlaintext`: clamps the priority cutoff (defaulting
to `MAX_PRIORITY`), uses the header when no (or an empty) title is
given, renders the header line and the per-field lines, and returns
`None` when only the header line was produced. -/
def Metadata.exportPlaintext (m : Metadata) (priority : Option Int)
    (human : Bool) (lp : String) (title : Option String) :
    Option (List String) :=
  let prio : Int :=
    match priority with
    | some p => min (max p MIN_PRIORITY) MAX_PRIORITY
    | none => MAX_PRIORITY
  let t : String :=
    match title with
    | some s => if s = "" then m.header else s
    | none => m.header
  let text : List String := (t ++ ":") :: exportLoop prio human lp (sortData m.data)
  if 1 < text.length then some text else none

/-- A multi-document (`MultipleMetadata`): its own fields plus the
ordered keyed child groups (`__groups`) and the per-base-key occurrence
counters (`__key_counter`).  Child groups are plain `Metadata`
documents, as in the extractors. -/
structure MultipleMetadata where
  base : Metadata
  groups : List (String × Metadata)
  key_counter : List (String × Nat)
deriving DecidableEq

/-- `MultipleMetadata.__nonzero__`: own fields non-empty, or some child
group non-empty. -/
def MultipleMetadata.nonzero (m : MultipleMetadata) : Bool :=
  Metadata.nonzero m.base || m.groups.any (fun g => Metadata.nonzero g.2)

/-- Modelled from the spec: lookup in the occurrence-counter mapping
(a plain Python dict in the source). -/
def counterGet (c : List (String × Nat)) (key : String) : Option Nat :=
  (c.find? (fun e => e.1 = key)).map (fun e => e.2)

/-- Modelled from the spec: update of the occurrence-counter mapping. -/
def counterSet (c : List (String × Nat)) (key : String) (n : Nat) :
    List (String × Nat) :=
  if c.any (fun e => e.1 = key) then
    c.map (fun e => if e.1 = key then (e.1, n) else e)
  else c ++ [(key, n)]

/-- Python `key.endswith("[]")` on the array-marker suffix. -/
def pyEndsWithArr (key : String) : Bool :=
  key.data.reverse.take 2 = [']', '[']

/-- The `"[%u]" % count` suffix appended to a rewritten group key. -/
def indexSuffix (n : Nat) : String := "[" ++ toString n ++ "]"

/-- Modelled from the spec: `Dict.append` of `hachoir_core.dict` (not
under src/): stores the value under the key in insertion order; group
keys are unique, so re-using an existing key raises `UniqKeyError`. -/
def dictAppend (groups : List (String × Metadata)) (key : String)
    (v : Metadata) : Except PyErr (List (String × Metadata)) :=
  if groups.any (fun g => g.1 = key) then .error PyErr.uniqKeyError
  else .ok (groups ++ [(key, v)])

/-- `MultipleMetadata.addGroup`: skips (returns `False`) an empty
document without mutating anything; otherwise rewrites an
array-marker key with the next 1-based occurrence index, sets the
child's header if a (truthy) one is given, and appends the child to the
groups.  Returns the post-call multi-document, the post-call child, the
returned boolean and the raised error, if any. -/
def MultipleMetadata.addGroup (m : MultipleMetadata) (key : String)
    (metadata : Metadata) (header : Option String) :
    MultipleMetadata × Metadata × Bool × Option PyErr :=
  if Metadata.nonzero metadata = false then (m, metadata, false, none)
  else
    let kc : String × List (String × Nat) :=
      if pyEndsWithArr key then
        let base : String := ⟨key.data.take (key.data.length - 2)⟩
        let n : Nat :=
          match counterGet m.key_counter base with
          | some c => c + 1
          | none => 1
        (base ++ indexSuffix n, counterSet m.key_counter base n)
      else (key, m.key_counter)
    let metadata2 : Metadata :=
      match header with
      | some h => if h = "" then metadata else Metadata.setHeader metadata h
      | none => metadata
    match dictAppend m.groups kc.1 metadata2 with
    | .error e => ({ m with key_counter := kc.2 }, metadata2, false, some e)
    | .ok gs => ({ m with groups := gs, key_counter := kc.2 }, metadata2, true, none)

/-- The group loop of `MultipleMetadata.exportPlaintext`: each child is
rendered with `None` as title when `human` is true (so its own header
is used) and with the group key as title otherwise; empty renderings
contribute nothing. -/
def groupsPlaintext (priority : Option Int) (human : Bool) (lp : String) :
    List (String × Metadata) → List String
  | [] => []
  | (key, g) :: rest =>
    (match Metadata.exportPlaintext g priority human lp
        (if human then none else some key) with
     | some v => v
     | none => []) ++ groupsPlaintext priority human lp rest

/-- `MultipleMetadata.exportPlaintext`: the own-field rendering (empty
when falsy) followed by each child group's rendering; `None` when
nothing at all was produced. -/
def MultipleMetadata.exportPlaintext (m : MultipleMetadata)
    (priority : Option Int) (human : Bool) (lp : String) :
    Option (List String) :=
  let text : List String :=
    (match Metadata.exportPlaintext m.base priority human lp none with
     | some common => common
     | none => []) ++ groupsPlaintext priority human lp m.groups
  if 0 < text.length then some text else none

/-- A parsed source document as seen by the dispatcher: its dynamic
(parser) type, declared MIME type and endian flag. -/
structure Parser where
  ptype : String
  mime_type : String
  endian : Bool
deriving DecidableEq

/-- Modelled from the spec: `endian_name` of `hachoir_core.endian` (not
under src/), the byte-order-name table read by `extractMetadata`. -/
def endian_name (b : Bool) : String :=
  if b then "Big endian" else "Little endian"

/-- One registered extractor: the declared schema and header of the
document subclass it constructs, and its population routine.  The
routine returns the document as mutated so far together with the
HACHOIR error it raised, if any — mutations made before the raise are
kept, which is how the `try/except HACHOIR_ERRORS` containment in
`extractMetadata` is embedded. -/
structure Extractor where
  schema : List Data
  docHeader : String
  populate : Parser → Metadata → Metadata × Option Unit

/-- Registry lookup by the parser's dynamic type
(`extractors[parser.__class__]`). -/
def lookupExtractor (reg : List (String × Extractor)) (ptype : String) :
    Option Extractor :=
  (reg.find? (fun e => e.1 = ptype)).map (fun e => e.2)

/-- `extractMetadata`: `None` for an unregistered parser type;
otherwise constructs the document, runs the population routine with
HACHOIR errors contained (logged, fields kept), attaches `mime_type`
and `endian` exactly when the populated document is non-empty, and
returns the document. -/
def extractMetadata (reg : List (String × Extractor)) (parser : Parser)
    (quality : Rat) : Option Metadata :=
  match lookupExtractor reg parser.ptype with
  | none => none
  | some ext =>
    let m0 : Metadata := Metadata.init none quality ext.schema ext.docHeader
    let m1 : Metadata := (ext.populate parser m0).1
    if Metadata.nonzero m1 then
      some (Metadata.setattr
        ((Metadata.setattr m1 "mime_type" (Value.vstr parser.mime_type)).1)
        "endian" (Value.vstr (endian_name parser.endian))).1
    else some m1

/-- Python `int()` truncation toward zero, on an exact rational. -/
def pyInt (q : Rat) : Int :=
  if 0 ≤ q then Rat.floor q else -(Rat.floor (-q))

/-- `maxNbFile` of `archive.py`: the quality-dependent bound on the
number of per-file groups (`None` = unbounded). -/
def maxNbFile (meta : Metadata) : Option Int :=
  if meta.quality ≤ QUALITY_FASTEST then some 0
  else if QUALITY_BEST ≤ meta.quality then none
  else some (1 + pyInt (10 * meta.quality))

/-- The shared `for index, field in enumerate(...)` loop of the archive
extractors (`ZipMetadata.extract` and friends): processes entries until
the bound is reached, in which case the truncation warning is logged
and enumeration stops.  Returns the processed entries (in order) and
whether the warning was logged. -/
def archiveIterate {α : Type} (max_nb : Option Int) :
    Nat → List α → List α × Bool
  | _, [] => ([], false)
  | index, f :: rest =>
    match max_nb with
    | some m =>
      if m ≤ (index : Int) then ([], true)
      else
        let r := archiveIterate (some m) (index + 1) rest
        (f :: r.1, r.2)
    | none =>
      let r := archiveIterate none (index + 1) rest
      (f :: r.1, r.2)

/-- `ZipMetadata.extract`: enumerates the archive's `file` entries under
the `maxNbFile` bound; each processed entry goes through the
fault-tolerant `processFile` (abstracted here: the entries themselves
are returned).  The boolean is the truncation warning. -/
def ZipMetadata.extract {α : Type} (meta : MultipleMetadata)
    (entries : List α) : List α × Bool :=
  archiveIterate (maxNbFile meta.base) 0 entries

/-- `computeCompressionRate` of `archive.py`: returns early (document
unchanged) unless `file_size` has a value and `compr_size` has a truthy
value; then sets `compr_rate` to `file_size / compr_size` only when the
`file_size` value itself is truthy.  Returns the post-call document and
the raised error, if any. -/
def computeCompressionRate (meta : Metadata) : Metadata × Option PyErr :=
  match Metadata.has meta "file_size" with
  | .error e => (meta, some e)
  | .ok hfs =>
    if hfs = false then (meta, none)
    else
      match Metadata.get meta "compr_size" (some (Value.vint 0)) 0 with
      | .error e => (meta, some e)
      | .ok cs0 =>
        if pyTruthy cs0 = false then (meta, none)
        else
          match Metadata.get meta "file_size" none 0 with
          | .error e => (meta, some e)
          | .ok fs =>
            if pyTruthy fs then
              match Metadata.get meta "compr_size" none 0 with
              | .error e => (meta, some e)
              | .ok cs =>
                Metadata.setattr meta "compr_rate"
                  (Value.vrat (valueToRat fs / valueToRat cs))
            else (meta, none)

/-- The parent of a vector field, reduced to what the constructor
reads: its path (used in the error message). -/
structure VectorParent where
  path : String
deriving DecidableEq

/-- An item type with a fixed encoded size (`item_class.static_size`). -/
structure ItemClass where
  static_size : Nat
deriving DecidableEq

/-- The state of a constructed `GenericVector`
(`hachoir_core/field/vector.py`). -/
structure GenericVector where
  nb_items : Int
  item_class : ItemClass
  item_name : String
  size : Nat
deriving DecidableEq

/-- `GenericVector.__init__`: raises `ParserError` naming the offending
field and its parent's path when the item count is not positive;
otherwise records the item count, item type and the total size
`nb_items * item_class.static_size`. -/
def GenericVector.init (parent : VectorParent) (name : String)
    (nb_items : Int) (item_class : ItemClass) (item_name : String) :
    Except String GenericVector :=
  if nb_items ≤ 0 then
    .error ("Unable to create empty vector \"" ++ name ++ "\" in " ++ parent.path)
  else
    .ok { nb_items := nb_items, item_class := item_class,
          item_name := item_name,
          size := nb_items.toNat * item_class.static_size }

/-- `GenericVector.__len__`. -/
def GenericVector.len (v : GenericVector) : Int := v.nb_items

/-- Modelled from the spec: `GenericVector.createFields` yields one
item field per index; the enclosing field-set machinery of
`hachoir_core.field` (not under src/) turns the `"name[]"` pattern into
positional labels `"name[i]"`. -/
def GenericVector.createFields (v : GenericVector) : List String :=
  (List.range v.nb_items.toNat).map
    (fun i => v.item_name ++ "[" ++ toString i ++ "]")

/-- Decidable equality on `Except`, so that runs of the embedded
functions can be checked by `decide`. -/
instance {ε α : Type} [DecidableEq ε] [DecidableEq α] :
    DecidableEq (Except ε α) := fun x y =>
  match x, y with
  | .ok a, .ok b =>
    if h : a = b then isTrue (h ▸ rfl) else isFalse fun hc => h (Except.ok.inj hc)
  | .error a, .error b =>
    if h : a = b then isTrue (h ▸ rfl)
    else isFalse fun hc => h (Except.error.inj hc)
  | .ok _, .error _ => isFalse fun hc => Except.noConfusion hc
  | .error _, .ok _ => isFalse fun hc => Except.noConfusion hc

/-- A fixture quality value 1/2, written in normal form so that kernel
evaluation works. -/
def halfQuality : Rat := ⟨1, 2, by decide, by decide⟩

/-- A fixture quality value 1/4, written in normal form. -/
def quarterQuality : Rat := ⟨1, 4, by decide, by decide⟩

/-- A declared `author` field with no values. -/
def authorField : Data := ⟨"author", "Author", 300, []⟩

/-- A declared `author` field already holding the raw value `"w"`. -/
def authorFieldW : Data := ⟨"author", "Author", 300, [⟨Value.vstr "w", "w"⟩]⟩

/-- A document whose schema declares only `author`, with no values. -/
def sampleDoc : Metadata := ⟨[authorField], "Metadata", halfQuality⟩

/-- A document whose `author` field already holds `"w"`. -/
def sampleDocW : Metadata := ⟨[authorFieldW], "Metadata", halfQuality⟩

/-- An empty multi-document fixture. -/
def sampleMulti : MultipleMetadata := ⟨sampleDoc, [], []⟩

/-- A multi-document fixture with quality 1/4 (for the quality-bound
scenario). -/
def quarterMulti : MultipleMetadata := ⟨⟨[], "Common", quarterQuality⟩, [], []⟩

/-- An extractor built from another by forcing the error component of
the population routine, keeping the produced document: used to state
that dispatch is insensitive to a contained HACHOIR error. -/
def withPopErr (ext : Extractor) (err : Option Unit) : Extractor :=
  { schema := ext.schema, docHeader := ext.docHeader,
    populate := fun p m => ((ext.populate p m).1, err) }

/-- A trivial registered extractor fixture whose population routine
sets nothing. -/
def idleExtractor : Extractor :=
  { schema := [authorField], docHeader := "Metadata",
    populate := fun _ m => (m, none) }

/-- A multi-document fixture with an empty own field store and one
non-empty child group. -/
def groupedMulti : MultipleMetadata :=
  ⟨⟨[], "Common", halfQuality⟩, [("file[1]", sampleDocW)], [("file", 1)]⟩

/-- Claim C4: for every document and every key not in the document's
declared schema, writing any value under that key raises an
unrecognized-key error (`KeyError`) and leaves the document
unchanged. -/
theorem c4_set_unknown_key (m : Metadata) (key : String) (v : Value)
    (h : key ∉ m.data.map Data.key) :
    Metadata.setattr m key v = (m, some PyErr.keyError) := by
  have hany : m.data.any (fun d => d.key = key) = false := by
    simp only [List.any_eq_false, decide_eq_true_eq]
    intro d hd heq
    exact h (heq ▸ List.mem_map_of_mem Data.key hd)
  simp [Metadata.setattr, hany]

/-- Witness for C4 at a concrete document and undeclared key. -/
theorem c4_set_unknown_key_witness :
    "bogus" ∉ sampleDoc.data.map Data.key ∧
      Metadata.setattr sampleDoc "bogus" (Value.vint 1) =
        (sampleDoc, some PyErr.keyError) :=
  ⟨by decide, c4_set_unknown_key sampleDoc "bogus" (Value.vint 1) (by decide)⟩

/-- Claim C6: `addGroup` with an empty child document returns `False`
and changes nothing: the group collection, the occurrence counters and
the child's header are all returned unmodified, and no error is
raised. -/
theorem c6_addGroup_empty (m : MultipleMetadata) (key : String)
    (metadata : Metadata) (header : Option String)
    (h : Metadata.nonzero metadata = false) :
    MultipleMetadata.addGroup m key metadata header = (m, metadata, false, none) := by
  unfold MultipleMetadata.addGroup
  rw [if_pos h]

/-- Witness for C6 at a concrete multi-document and empty child. -/
theorem c6_addGroup_empty_witness :
    Metadata.nonzero sampleDoc = false ∧
      MultipleMetadata.addGroup sampleMulti "file[]" sampleDoc (some "File") =
        (sampleMulti, sampleDoc, false, none) :=
  ⟨by decide,
   c6_addGroup_empty sampleMulti "file[]" sampleDoc (some "File") (by decide)⟩

/-- Claim C9: constructing the lazy item-sequence fails with a parser
error naming the offending field and its parent's path iff the item
count is not positive; for a positive count the vector reports that
count as its length, creates exactly that many positionally-labeled
sub-fields, and has total size `count * static_size`. -/
theorem c9_generic_vector (parent : VectorParent) (name : String)
    (nb_items : Int) (item_class : ItemClass) (item_name : String) :
    ((∃ e, GenericVector.init parent name nb_items item_class item_name =
        .error e) ↔ nb_items ≤ 0) ∧
    (nb_items ≤ 0 →
      GenericVector.init parent name nb_items item_class item_name =
        .error ("Unable to create empty vector \"" ++ name ++ "\" in " ++
          parent.path)) ∧
    (∀ v, GenericVector.init parent name nb_items item_class item_name = .ok v →
      GenericVector.len v = nb_items ∧
      (GenericVector.createFields v).length = nb_items.toNat ∧
      v.size = nb_items.toNat * item_class.static_size) := by
  unfold GenericVector.init
  by_cases h : nb_items ≤ 0
  · rw [if_pos h]
    refine ⟨⟨fun _ => h, fun _ => ⟨_, rfl⟩⟩, fun _ => rfl, ?_⟩
    intro v hv
    exact absurd hv (by simp)
  · rw [if_neg h]
    refine ⟨⟨?_, fun hle => absurd hle h⟩, fun hle => absurd hle h, ?_⟩
    · rintro ⟨e, he⟩
      exact absurd he (by simp)
    · intro v hv
      have hv2 := Except.ok.inj hv
      subst hv2
      refine ⟨rfl, ?_, rfl⟩
      simp [GenericVector.createFields]

/-- Witness for C9: a concrete successful construction (3 items of
size 8) and a concrete failing one (0 items). -/
theorem c9_generic_vector_witness :
    ((3 : Int) ≤ 0 → False) ∧
    (GenericVector.len ⟨3, ⟨8⟩, "item", 24⟩ = 3 ∧
      (GenericVector.createFields ⟨3, ⟨8⟩, "item", 24⟩).length = (3 : Int).toNat ∧
      (⟨3, ⟨8⟩, "item", 24⟩ : GenericVector).size = (3 : Int).toNat * 8) ∧
    GenericVector.init ⟨"/static"⟩ "vec" 0 ⟨8⟩ "item" =
      .error "Unable to create empty vector \"vec\" in /static" :=
  ⟨by decide,
   (c9_generic_vector ⟨"/static"⟩ "vec" 3 ⟨8⟩ "item").2.2 ⟨3, ⟨8⟩, "item", 24⟩
     (by decide),
   (c9_generic_vector ⟨"/static"⟩ "vec" 0 ⟨8⟩ "item").2.1 (by decide)⟩

/-- `getItems` can only raise `ValueError`. -/
theorem getItems_error_eq (m : Metadata) (key : String) (e : PyErr)
    (h : Metadata.getItems m key = .error e) : e = PyErr.valueError := by
  unfold Metadata.getItems at h
  cases hf : m.data.find? (fun d => d.key = key) with
  | some d => rw [hf] at h; exact absurd h (by simp)
  | none => rw [hf] at h; exact (Except.error.inj h).symm

/-- `getItem` never raises: the lookup errors are all caught. -/
theorem getItem_ok (m : Metadata) (key : String) (i : Int) :
    ∃ o, Metadata.getItem m key i = .ok o := by
  cases hg : Metadata.getItems m key with
  | error e =>
    have he := getItems_error_eq m key e hg
    subst he
    exact ⟨none, by simp [Metadata.getItem, hg, isCaughtLookup]⟩
  | ok items =>
    cases hp : pyListGet items i with
    | some it => exact ⟨some it, by simp [Metadata.getItem, hg, hp]⟩
    | none => exact ⟨none, by simp [Metadata.getItem, hg, hp]⟩

/-- On an undeclared key, `getItems` raises `ValueError`. -/
theorem getItems_undeclared (m : Metadata) (key : String)
    (h : key ∉ m.data.map Data.key) :
    Metadata.getItems m key = .error PyErr.valueError := by
  unfold Metadata.getItems
  have hf : m.data.find? (fun d => d.key = key) = none := by
    rw [List.find?_eq_none]
    intro d hd
    simp only [decide_eq_true_eq]
    intro heq
    exact h (heq ▸ List.mem_map_of_mem Data.key hd)
  rw [hf]

/-- On an undeclared key, `getItem` returns `None` (the error is
caught). -/
theorem getItem_undeclared (m : Metadata) (key : String) (i : Int)
    (h : key ∉ m.data.map Data.key) :
    Metadata.getItem m key i = .ok none := by
  unfold Metadata.getItem
  rw [getItems_undeclared m key h]
  simp [isCaughtLookup]

/-- Claim C10: the read path never raises.  `getText` returns the
stored item's display text when present and the (possibly `None`)
default otherwise — for every key, declared or not, and every index;
`get` with a non-`None` default likewise returns a value rather than
raising; in particular, on an undeclared key `getText` returns the
default and `get` with a default returns it: the unknown-key error of
the underlying lookup is swallowed. -/
theorem c10_read_path_total (m : Metadata) (key : String)
    (d : Option String) (dv : Value) (i : Int)
    (h : key ∉ m.data.map Data.key) :
    Metadata.getText m key d i = .ok d ∧
    Metadata.get m key (some dv) i = .ok dv ∧
    (∀ (m2 : Metadata) (k2 : String) (d2 : Option String) (i2 : Int),
      ∃ r, Metadata.getText m2 k2 d2 i2 = .ok r) ∧
    (∀ (m2 : Metadata) (k2 : String) (dv2 : Value) (i2 : Int),
      ∃ r, Metadata.get m2 k2 (some dv2) i2 = .ok r) ∧
    (∀ (m2 : Metadata) (k2 : String) (d2 : Option String) (i2 : Int) it,
      Metadata.getItem m2 k2 i2 = .ok (some it) →
        Metadata.getText m2 k2 d2 i2 = .ok (some it.text)) := by
  refine ⟨?_, ?_, ?_, ?_, ?_⟩
  · unfold Metadata.getText
    rw [getItem_undeclared m key i h]
  · unfold Metadata.get
    rw [getItem_undeclared m key i h]
  · intro m2 k2 d2 i2
    obtain ⟨o, ho⟩ := getItem_ok m2 k2 i2
    unfold Metadata.getText
    rw [ho]
    cases o with
    | some it => exact ⟨some it.text, rfl⟩
    | none => exact ⟨d2, rfl⟩
  · intro m2 k2 dv2 i2
    obtain ⟨o, ho⟩ := getItem_ok m2 k2 i2
    unfold Metadata.get
    rw [ho]
    cases o with
    | some it => exact ⟨it.value, rfl⟩
    | none => exact ⟨dv2, rfl⟩
  · intro m2 k2 d2 i2 it hit
    unfold Metadata.getText
    rw [hit]

/-- Witness for C10 at a concrete document, undeclared key and negative
index. -/
theorem c10_read_path_total_witness :
    "bogus" ∉ sampleDocW.data.map Data.key ∧
      (Metadata.getText sampleDocW "bogus" (some "Unknown") (-1) =
        .ok (some "Unknown") ∧
       Metadata.get sampleDocW "bogus" (some (Value.vint 7)) (-1) =
        .ok (Value.vint 7)) :=
  ⟨by decide,
   (c10_read_path_total sampleDocW "bogus" (some "Unknown") (Value.vint 7) (-1)
      (by decide)).1,
   (c10_read_path_total sampleDocW "bogus" (some "Unknown") (Value.vint 7) (-1)
      (by decide)).2.1⟩

/-- `Data.add` never changes the field's key. -/
theorem Data.add_key (d : Data) (v : Value) : (Data.add d v).key = d.key := by
  unfold Data.add
  split <;> rfl

/-- After `Data.add`, the added raw value is present. -/
theorem Data.add_mem_self (d : Data) (v : Value) :
    (Data.add d v).values.any (fun it => it.value = v) = true := by
  unfold Data.add
  split
  · assumption
  · simp [List.any_append]

/-- `Data.add` is idempotent in the raw value. -/
theorem Data.add_idem (d : Data) (v : Value) :
    Data.add (Data.add d v) v = Data.add d v := by
  rw [Data.add]
  rw [if_pos (Data.add_mem_self d v)]

/-- Writing a declared key once: the success branch of `setattr`. -/
theorem setattr_declared (m : Metadata) (key : String) (v : Value)
    (hk : m.data.any (fun d => d.key = key) = true) :
    Metadata.setattr m key v =
      (Metadata.mk
        (m.data.map (fun d => if d.key = key then Data.add d v else d))
        m.header m.quality, none) := by
  unfold Metadata.setattr
  rw [if_pos hk]

/-- `setattr` preserves the set of declared keys. -/
theorem setattr_keys (m : Metadata) (key : String) (v : Value) :
    ((Metadata.setattr m key v).1).data.map Data.key = m.data.map Data.key := by
  unfold Metadata.setattr
  split
  · simp only [List.map_map]
    apply List.map_congr_left
    intro d _
    show (if d.key = key then Data.add d v else d).key = d.key
    split
    · exact Data.add_key d v
    · rfl
  · rfl

/-- Counterexample to claim C5 as stated: on a document whose `author`
field already holds the distinct raw value `"w"`, writing `"v"` twice
leaves two stored value items under the key, not one. -/
theorem c5_dedup_counterexample :
    "author" ∈ sampleDocW.data.map Data.key ∧
      Metadata.getValues
        ((Metadata.setattr
          ((Metadata.setattr sampleDocW "author" (Value.vstr "v")).1)
          "author" (Value.vstr "v")).1) "author" =
        .ok [Value.vstr "w", Value.vstr "v"] := by
  constructor
  · decide
  · rfl

/-- Claim C5 (amended): on a declared key, the duplicate write is a
silent no-op for every document — `set(k,v)` twice equals `set(k,v)`
once, with no error, whatever values the key already holds — and when
the key starts with no values, the two writes leave exactly one stored
value item, carrying `v`. -/
theorem c5_dedup_idempotent (m : Metadata) (key : String) (v : Value)
    (hk : key ∈ m.data.map Data.key) :
    Metadata.setattr ((Metadata.setattr m key v).1) key v =
      ((Metadata.setattr m key v).1, none) ∧
    ((∀ d ∈ m.data, d.key = key → d.values = []) →
      Metadata.getValues
        ((Metadata.setattr ((Metadata.setattr m key v).1) key v).1) key =
        .ok [v]) := by
  have hany : m.data.any (fun d => d.key = key) = true := by
    simp only [List.any_eq_true, decide_eq_true_eq]
    obtain ⟨d, hd, hdk⟩ := List.mem_map.mp hk
    exact ⟨d, hd, hdk⟩
  have hany1 : ((Metadata.setattr m key v).1).data.any
      (fun d => d.key = key) = true := by
    simp only [List.any_eq_true, decide_eq_true_eq]
    have hk1 : key ∈ ((Metadata.setattr m key v).1).data.map Data.key := by
      rw [setattr_keys m key v]; exact hk
    obtain ⟨d, hd, hdk⟩ := List.mem_map.mp hk1
    exact ⟨d, hd, hdk⟩
  have hmap2 : (m.data.map (fun d => if d.key = key then Data.add d v else d)).map
      (fun d => if d.key = key then Data.add d v else d) =
      m.data.map (fun d => if d.key = key then Data.add d v else d) := by
    rw [List.map_map]
    apply List.map_congr_left
    intro d _
    show (fun d => if d.key = key then Data.add d v else d)
      (if d.key = key then Data.add d v else d) =
      (if d.key = key then Data.add d v else d)
    by_cases hd : d.key = key
    · rw [if_pos hd]
      show (if (Data.add d v).key = key then Data.add (Data.add d v) v
        else Data.add d v) = Data.add d v
      rw [Data.add_key]
      rw [if_pos hd, Data.add_idem]
    · rw [if_neg hd]
      show (if d.key = key then Data.add d v else d) = d
      rw [if_neg hd]
  have hstep1 := setattr_declared m key v hany
  have hstep2 := setattr_declared ((Metadata.setattr m key v).1) key v hany1
  rw [hstep1] at hstep2
  constructor
  · rw [hstep1]
    rw [hstep1] at hany1
    have := setattr_declared
      (Metadata.mk (m.data.map (fun d => if d.key = key then Data.add d v else d))
        m.header m.quality) key v hany1
    rw [this]
    show (Metadata.mk _ m.header m.quality, (none : Option PyErr)) = _
    rw [hmap2]
  · intro he
    obtain ⟨d0, hfind⟩ : ∃ d0, m.data.find? (fun d => d.key = key) = some d0 := by
      cases hf : m.data.find? (fun d => d.key = key) with
      | some d0 => exact ⟨d0, rfl⟩
      | none =>
        exfalso
        obtain ⟨d, hd, hdk⟩ := List.mem_map.mp hk
        have := List.find?_eq_none.mp hf d hd
        simp [hdk] at this
    have hd0 := List.find?_some hfind
    have hd0m := List.mem_of_find?_eq_some hfind
    simp only [decide_eq_true_eq] at hd0
    have hd0v := he d0 hd0m hd0
    have hadd0 : Data.add d0 v = Data.mk d0.key d0.description d0.priority
        [⟨v, valueToText v⟩] := by
      unfold Data.add
      rw [hd0v]
      simp
    rw [hstep1, hstep2]
    show Metadata.getValues (Metadata.mk _ m.header m.quality) key = .ok [v]
    rw [hmap2]
    unfold Metadata.getValues
    have hfind2 : (m.data.map
        (fun d => if d.key = key then Data.add d v else d)).find?
        (fun d => d.key = key) = some (Data.add d0 v) := by
      rw [List.find?_map]
      have hpf : ((fun d => decide (d.key = key)) ∘
          (fun d => if d.key = key then Data.add d v else d)) =
          (fun d => decide (d.key = key)) := by
        funext d
        show decide ((if d.key = key then Data.add d v else d).key = key) =
          decide (d.key = key)
        by_cases hd : d.key = key
        · rw [if_pos hd, Data.add_key]
        · rw [if_neg hd]
      rw [hpf, hfind]
      show some ((fun d => if d.key = key then Data.add d v else d) d0) = _
      show some (if d0.key = key then Data.add d0 v else d0) = _
      rw [if_pos hd0]
    rw [hfind2, hadd0]
    rfl

/-- Witness for C5 (amended): the unconditional silent no-op both on a
document whose key starts empty and on the counterexample's document
already holding `"w"`, and the exactly-one-item outcome on the empty
start. -/
theorem c5_dedup_idempotent_witness :
    ("author" ∈ sampleDoc.data.map Data.key ∧
     "author" ∈ sampleDocW.data.map Data.key) ∧
    Metadata.setattr ((Metadata.setattr sampleDoc "author" (Value.vstr "v")).1)
        "author" (Value.vstr "v") =
      ((Metadata.setattr sampleDoc "author" (Value.vstr "v")).1, none) ∧
    Metadata.setattr ((Metadata.setattr sampleDocW "author" (Value.vstr "v")).1)
        "author" (Value.vstr "v") =
      ((Metadata.setattr sampleDocW "author" (Value.vstr "v")).1, none) ∧
    Metadata.getValues
      ((Metadata.setattr
        ((Metadata.setattr sampleDoc "author" (Value.vstr "v")).1)
        "author" (Value.vstr "v")).1) "author" = .ok [Value.vstr "v"] :=
  ⟨⟨by decide, by decide⟩,
   (c5_dedup_idempotent sampleDoc "author" (Value.vstr "v") (by decide)).1,
   (c5_dedup_idempotent sampleDocW "author" (Value.vstr "v") (by decide)).1,
   (c5_dedup_idempotent sampleDoc "author" (Value.vstr "v") (by decide)).2
     (by decide)⟩

/-- A key built by appending the array marker ends with the array
marker. -/
theorem pyEndsWithArr_append (base : String) :
    pyEndsWithArr (base ++ "[]") = true := by
  unfold pyEndsWithArr
  rw [String.data_append]
  have h2 : ("[]" : String).data = ['[', ']'] := by decide
  rw [h2, List.reverse_append]
  have h3 : (['[', ']'] : List Char).reverse = [']', '['] := by decide
  rw [h3]
  have h4 : ([']', '['] : List Char).length = 2 := by decide
  rw [← h4, List.take_left]
  simp

/-- Stripping the two marker characters recovers the base key
(the `key[:-2]` slice). -/
theorem takeBase (base : String) :
    (⟨(base ++ "[]").data.take ((base ++ "[]").data.length - 2)⟩ : String) =
      base := by
  rw [String.data_append]
  have h2 : ("[]" : String).data = ['[', ']'] := by decide
  rw [h2, List.length_append]
  have h4 : (['[', ']'] : List Char).length = 2 := by decide
  rw [h4]
  have h5 : base.data.length + 2 - 2 = base.data.length := by omega
  rw [h5, List.take_left]

/-- Appending distinct suffixes to the same base yields distinct
strings. -/
theorem str_append_right_ne (base : String) {a b : String} (h : a ≠ b) :
    base ++ a ≠ base ++ b := by
  intro hc
  apply h
  have hd := congrArg String.data hc
  rw [String.data_append, String.data_append] at hd
  have hd2 := List.append_cancel_left hd
  calc a = ⟨a.data⟩ := rfl
    _ = ⟨b.data⟩ := by rw [hd2]
    _ = b := rfl

/-- Looking up a key in the updated counter after an in-place
replacement. -/
theorem counterGet_map (c : List (String × Nat)) (key : String) (n : Nat)
    (h : c.any (fun e => e.1 = key) = true) :
    counterGet (c.map (fun e => if e.1 = key then (e.1, n) else e)) key =
      some n := by
  induction c with
  | nil => simp at h
  | cons e rest ih =>
    by_cases he : e.1 = key
    · unfold counterGet
      rw [List.map_cons, if_pos he, List.find?_cons_of_pos]
      · simp
      · simp [he]
    · have hr : rest.any (fun x => x.1 = key) = true := by
        cases hx : rest.any (fun x => x.1 = key) with
        | true => rfl
        | false =>
          exfalso
          rw [List.any_cons, hx] at h
          simp [he] at h
      unfold counterGet at ih ⊢
      rw [List.map_cons, if_neg he, List.find?_cons_of_neg]
      · exact ih hr
      · simp [he]

/-- Looking up a key in the counter after appending a fresh entry. -/
theorem counterGet_append_self (c : List (String × Nat)) (key : String)
    (n : Nat) (h : c.any (fun e => e.1 = key) = false) :
    counterGet (c ++ [(key, n)]) key = some n := by
  unfold counterGet
  rw [List.find?_append]
  have hnone : c.find? (fun e => e.1 = key) = none := by
    rw [List.find?_eq_none]
    intro a ha
    rw [List.any_eq_false] at h
    exact h a ha
  rw [hnone]
  simp [List.find?]

/-- `counterSet` followed by `counterGet` on the same key returns the
stored count. -/
theorem counterGet_counterSet_self (c : List (String × Nat)) (key : String)
    (n : Nat) : counterGet (counterSet c key n) key = some n := by
  unfold counterSet
  by_cases h : c.any (fun e => e.1 = key) = true
  · rw [if_pos h]
    exact counterGet_map c key n h
  · rw [if_neg h]
    exact counterGet_append_self c key n (by
      cases hc : c.any (fun e => e.1 = key) with
      | true => exact absurd hc h
      | false => rfl)

/-- One `addGroup` call with a non-empty child and an array-marker key:
the key is rewritten with the next 1-based occurrence index, the
counter updated, and the child appended. -/
theorem addGroup_array_step (m : MultipleMetadata) (base : String)
    (d : Metadata) (n : Nat)
    (hnz : Metadata.nonzero d = true)
    (hn : (match counterGet m.key_counter base with
           | some c => c + 1
           | none => 1) = n)
    (hfree : m.groups.any (fun g => g.1 = base ++ indexSuffix n) = false) :
    MultipleMetadata.addGroup m (base ++ "[]") d none =
      (MultipleMetadata.mk m.base (m.groups ++ [(base ++ indexSuffix n, d)])
        (counterSet m.key_counter base n), d, true, none) := by
  unfold MultipleMetadata.addGroup
  rw [if_neg (by simp [hnz])]
  simp only [pyEndsWithArr_append, if_true, takeBase, hn]
  unfold dictAppend
  rw [if_neg (by intro hc; rw [hfree] at hc; exact absurd hc (by simp))]

/-- Counterexample to claim C7 as stated: three `add_group` calls with
the same array-marker key but empty documents store nothing at all (the
group collection stays empty and each call returns `False`), so the
three 1-based indexed keys do not appear "regardless of document
content". -/
theorem c7_array_key_counterexample :
    (MultipleMetadata.addGroup sampleMulti "file[]" sampleDoc none).2.2.1 = false ∧
    ((MultipleMetadata.addGroup
      ((MultipleMetadata.addGroup
        ((MultipleMetadata.addGroup sampleMulti "file[]" sampleDoc none).1)
        "file[]" sampleDoc none).1)
      "file[]" sampleDoc none).1).groups = [] := by
  decide

/-- Claim C7 (amended): three `add_group` calls with the same
array-marker base key, each with a non-empty document, on a
multi-document whose counter has no entry for the base and whose groups
hold no key of the indexed form, store the three documents under three
distinct keys carrying the 1-based indices 1, 2, 3 in insertion order —
regardless of the (non-empty) documents' content. -/
theorem c7_array_key_indices (m : MultipleMetadata) (base : String)
    (d1 d2 d3 : Metadata)
    (h1 : Metadata.nonzero d1 = true) (h2 : Metadata.nonzero d2 = true)
    (h3 : Metadata.nonzero d3 = true)
    (hc : counterGet m.key_counter base = none)
    (hg : ∀ g ∈ m.groups, ∀ n : Nat, g.1 ≠ base ++ indexSuffix n) :
    (base ++ indexSuffix 1 ≠ base ++ indexSuffix 2 ∧
     base ++ indexSuffix 1 ≠ base ++ indexSuffix 3 ∧
     base ++ indexSuffix 2 ≠ base ++ indexSuffix 3) ∧
    (MultipleMetadata.addGroup m (base ++ "[]") d1 none).2.2.1 = true ∧
    (MultipleMetadata.addGroup
      ((MultipleMetadata.addGroup m (base ++ "[]") d1 none).1)
      (base ++ "[]") d2 none).2.2.1 = true ∧
    (MultipleMetadata.addGroup
      ((MultipleMetadata.addGroup
        ((MultipleMetadata.addGroup m (base ++ "[]") d1 none).1)
        (base ++ "[]") d2 none).1)
      (base ++ "[]") d3 none).2.2.1 = true ∧
    ((MultipleMetadata.addGroup
      ((MultipleMetadata.addGroup
        ((MultipleMetadata.addGroup m (base ++ "[]") d1 none).1)
        (base ++ "[]") d2 none).1)
      (base ++ "[]") d3 none).1).groups =
      m.groups ++ [(base ++ indexSuffix 1, d1), (base ++ indexSuffix 2, d2),
        (base ++ indexSuffix 3, d3)] := by
  have k12 := str_append_right_ne base
    (show indexSuffix 1 ≠ indexSuffix 2 by decide)
  have k13 := str_append_right_ne base
    (show indexSuffix 1 ≠ indexSuffix 3 by decide)
  have k23 := str_append_right_ne base
    (show indexSuffix 2 ≠ indexSuffix 3 by decide)
  have hfg : ∀ n : Nat, m.groups.any
      (fun g => g.1 = base ++ indexSuffix n) = false := by
    intro n
    rw [List.any_eq_false]
    intro g hgm
    simp only [decide_eq_true_eq]
    exact hg g hgm n
  have e1 := addGroup_array_step m base d1 1 h1 (by rw [hc]) (hfg 1)
  have hr1 : (MultipleMetadata.addGroup m (base ++ "[]") d1 none).1 =
      MultipleMetadata.mk m.base (m.groups ++ [(base ++ indexSuffix 1, d1)])
        (counterSet m.key_counter base 1) := by rw [e1]
  have hfree2 : (m.groups ++ [(base ++ indexSuffix 1, d1)]).any
      (fun g => g.1 = base ++ indexSuffix 2) = false := by
    rw [List.any_append, hfg 2]
    simp [k12]
  have e2 := addGroup_array_step
    (MultipleMetadata.mk m.base (m.groups ++ [(base ++ indexSuffix 1, d1)])
      (counterSet m.key_counter base 1)) base d2 2 h2
    (by rw [show counterGet (counterSet m.key_counter base 1) base = some 1
          from counterGet_counterSet_self m.key_counter base 1])
    hfree2
  have hr2 : (MultipleMetadata.addGroup
      (MultipleMetadata.mk m.base (m.groups ++ [(base ++ indexSuffix 1, d1)])
        (counterSet m.key_counter base 1)) (base ++ "[]") d2 none).1 =
      MultipleMetadata.mk m.base
        (m.groups ++ [(base ++ indexSuffix 1, d1)] ++ [(base ++ indexSuffix 2, d2)])
        (counterSet (counterSet m.key_counter base 1) base 2) := by rw [e2]
  have hfree3 : (m.groups ++ [(base ++ indexSuffix 1, d1)] ++
      [(base ++ indexSuffix 2, d2)]).any
      (fun g => g.1 = base ++ indexSuffix 3) = false := by
    rw [List.any_append, List.any_append, hfg 3]
    simp [k13, k23]
  have e3 := addGroup_array_step
    (MultipleMetadata.mk m.base
      (m.groups ++ [(base ++ indexSuffix 1, d1)] ++ [(base ++ indexSuffix 2, d2)])
      (counterSet (counterSet m.key_counter base 1) base 2)) base d3 3 h3
    (by rw [show counterGet (counterSet (counterSet m.key_counter base 1) base 2)
          base = some 2
          from counterGet_counterSet_self (counterSet m.key_counter base 1) base 2])
    hfree3
  refine ⟨⟨k12, k13, k23⟩, ?_, ?_, ?_, ?_⟩
  · rw [e1]
  · rw [hr1, e2]
  · rw [hr1, hr2, e3]
  · rw [hr1, hr2, e3]
    simp [List.append_assoc]

/-- Witness for C7 (amended) at concrete non-empty documents. -/
theorem c7_array_key_indices_witness :
    (Metadata.nonzero sampleDocW = true ∧
     counterGet sampleMulti.key_counter "file" = none) ∧
    ((MultipleMetadata.addGroup
      ((MultipleMetadata.addGroup
        ((MultipleMetadata.addGroup sampleMulti ("file" ++ "[]") sampleDocW none).1)
        ("file" ++ "[]") sampleDocW none).1)
      ("file" ++ "[]") sampleDocW none).1).groups =
      sampleMulti.groups ++ [("file" ++ indexSuffix 1, sampleDocW),
        ("file" ++ indexSuffix 2, sampleDocW),
        ("file" ++ indexSuffix 3, sampleDocW)] :=
  ⟨⟨by decide, by decide⟩,
   (c7_array_key_indices sampleMulti "file" sampleDocW sampleDocW sampleDocW
     (by decide) (by decide) (by decide) (by decide)
     (by intro g hgm n; exact absurd hgm (List.not_mem_nil g))).2.2.2.2⟩

/-- A document whose `file_size` is 0 and `compr_size` is 100 (both
known, compressed size nonzero). -/
def comprDocZero : Metadata :=
  ⟨[⟨"file_size", "File size", 310, [⟨Value.vint 0, "0"⟩]⟩,
    ⟨"compr_size", "Compressed size", 310, [⟨Value.vint 100, "100"⟩]⟩,
    ⟨"compr_rate", "Compression rate", 310, []⟩], "Metadata", halfQuality⟩

/-- A document whose `file_size` is 300 and `compr_size` is 100. -/
def comprDoc300 : Metadata :=
  ⟨[⟨"file_size", "File size", 310, [⟨Value.vint 300, "300"⟩]⟩,
    ⟨"compr_size", "Compressed size", 310, [⟨Value.vint 100, "100"⟩]⟩,
    ⟨"compr_rate", "Compression rate", 310, []⟩], "Metadata", halfQuality⟩

/-- If `get` with a default returns a truthy value, the item is really
present, so `get` without a default returns the same value. -/
theorem get_default_present (m : Metadata) (key : String) (i : Int)
    (v : Value) (hv : Metadata.get m key (some (Value.vint 0)) i = .ok v)
    (ht : pyTruthy v = true) : Metadata.get m key none i = .ok v := by
  cases hi : Metadata.getItem m key i with
  | error e =>
    unfold Metadata.get at hv
    rw [hi] at hv
    exact absurd hv (by simp)
  | ok o =>
    cases o with
    | none =>
      unfold Metadata.get at hv
      rw [hi] at hv
      simp at hv
      rw [← hv] at ht
      exact absurd ht (by decide)
    | some it =>
      unfold Metadata.get at hv ⊢
      rw [hi] at hv ⊢
      exact hv

/-- Counterexample to claim C8 as stated: with a known decompressed
size of 0 and a known nonzero compressed size of 100, the code sets no
rate at all (the document is returned unchanged), although the claim
demands the rate be set whenever both sizes are known and the
compressed one is nonzero. -/
theorem c8_compr_rate_counterexample :
    Metadata.has comprDocZero "file_size" = .ok true ∧
    Metadata.get comprDocZero "compr_size" (some (Value.vint 0)) 0 =
      .ok (Value.vint 100) ∧
    pyTruthy (Value.vint 100) = true ∧
    computeCompressionRate comprDocZero = (comprDocZero, none) := by
  decide

/-- Claim C8 (amended): the compression rate is set, to
decompressed/compressed, exactly when the decompressed size is known
and truthy (nonzero) and the compressed size is known and truthy; in
every other case — unknown decompressed size, zero or unknown
compressed size, and also a known decompressed size of 0 — the
document is left unchanged and the division is never executed. -/
theorem c8_compr_rate (meta : Metadata) :
    (Metadata.has meta "file_size" = .ok false →
      computeCompressionRate meta = (meta, none)) ∧
    (∀ cs, Metadata.has meta "file_size" = .ok true →
      Metadata.get meta "compr_size" (some (Value.vint 0)) 0 = .ok cs →
      pyTruthy cs = false →
      computeCompressionRate meta = (meta, none)) ∧
    (∀ fs cs, Metadata.has meta "file_size" = .ok true →
      Metadata.get meta "compr_size" (some (Value.vint 0)) 0 = .ok cs →
      pyTruthy cs = true →
      Metadata.get meta "file_size" none 0 = .ok fs →
      pyTruthy fs = false →
      computeCompressionRate meta = (meta, none)) ∧
    (∀ fs cs, Metadata.has meta "file_size" = .ok true →
      Metadata.get meta "compr_size" (some (Value.vint 0)) 0 = .ok cs →
      pyTruthy cs = true →
      Metadata.get meta "file_size" none 0 = .ok fs →
      pyTruthy fs = true →
      computeCompressionRate meta =
        Metadata.setattr meta "compr_rate"
          (Value.vrat (valueToRat fs / valueToRat cs))) := by
  refine ⟨?_, ?_, ?_, ?_⟩
  · intro hh
    unfold computeCompressionRate
    rw [hh]
    simp
  · intro cs hh hcs hcst
    unfold computeCompressionRate
    rw [hh, hcs]
    simp [hcst]
  · intro fs cs hh hcs hcst hfs hfst
    unfold computeCompressionRate
    rw [hh, hcs, hfs]
    simp [hcst, hfst]
  · intro fs cs hh hcs hcst hfs hfst
    have hcs2 := get_default_present meta "compr_size" 0 cs hcs hcst
    unfold computeCompressionRate
    rw [hh, hcs, hfs, hcs2]
    simp [hcst, hfst]

/-- Witness for C8 (amended): decompressed 300 and compressed 100 give
exactly the rate 3. -/
theorem c8_compr_rate_witness :
    Metadata.has comprDoc300 "file_size" = .ok true ∧
    computeCompressionRate comprDoc300 =
      Metadata.setattr comprDoc300 "compr_rate" (Value.vrat 3) := by
  constructor
  · decide
  · have h := (c8_compr_rate comprDoc300).2.2.2 (Value.vint 300)
      (Value.vint 100) (by decide) (by decide) (by decide) (by decide)
      (by decide)
    rw [h]
    have hq : valueToRat (Value.vint 300) / valueToRat (Value.vint 100) =
        (3 : Rat) := by
      norm_num [valueToRat]
    rw [hq]

/-- Claim C3: `extractMetadata` returns `None` exactly when the
parser's dynamic type has no registered extractor; for a registered
type it builds the extractor's document, runs the population routine
with any HACHOIR error contained (the outcome depends only on the
fields set, not on whether an error was raised), attaches `mime_type`
and `endian` exactly when the populated document is non-empty, and
returns the document. -/
theorem c3_extractMetadata_dispatch (reg : List (String × Extractor))
    (parser : Parser) (q : Rat) :
    (extractMetadata reg parser q = none ↔
      lookupExtractor reg parser.ptype = none) ∧
    (∀ ext, lookupExtractor reg parser.ptype = some ext →
      extractMetadata reg parser q =
        some (if Metadata.nonzero
            ((ext.populate parser
              (Metadata.init none q ext.schema ext.docHeader)).1) = true then
          (Metadata.setattr
            ((Metadata.setattr
              ((ext.populate parser
                (Metadata.init none q ext.schema ext.docHeader)).1)
              "mime_type" (Value.vstr parser.mime_type)).1)
            "endian" (Value.vstr (endian_name parser.endian))).1
        else (ext.populate parser
          (Metadata.init none q ext.schema ext.docHeader)).1)) ∧
    (∀ ext e1 e2,
      extractMetadata [(parser.ptype, withPopErr ext e1)] parser q =
        extractMetadata [(parser.ptype, withPopErr ext e2)] parser q) := by
  refine ⟨?_, ?_, ?_⟩
  · cases h : lookupExtractor reg parser.ptype with
    | none => simp [extractMetadata, h]
    | some ext =>
      constructor
      · intro hc
        exfalso
        simp only [extractMetadata, h] at hc
        split at hc <;> simp at hc
      · intro hc
        exact Option.noConfusion hc
  · intro ext hx
    simp only [extractMetadata, hx]
    split
    · rfl
    · rfl
  · intro ext e1 e2
    have hl : ∀ e, lookupExtractor [(parser.ptype, withPopErr ext e)]
        parser.ptype = some (withPopErr ext e) := by
      intro e
      simp [lookupExtractor, List.find?]
    simp only [extractMetadata]
    rw [hl e1, hl e2]
    simp only [withPopErr]

/-- Witness for C3 at a concrete one-entry registry whose extractor
populates nothing: the document is returned without the cross-format
fields (it is empty). -/
theorem c3_extractMetadata_dispatch_witness :
    lookupExtractor [("zip", idleExtractor)] "zip" = some idleExtractor ∧
    extractMetadata [("zip", idleExtractor)]
      (Parser.mk "zip" "application/zip" false) halfQuality =
      some ((idleExtractor.populate (Parser.mk "zip" "application/zip" false)
        (Metadata.init none halfQuality idleExtractor.schema
          idleExtractor.docHeader)).1) := by
  constructor
  · rfl
  · have h := (c3_extractMetadata_dispatch [("zip", idleExtractor)]
      (Parser.mk "zip" "application/zip" false) halfQuality).2.1
      idleExtractor rfl
    rw [h]
    rw [if_neg (by decide)]

/-- Unbounded enumeration processes every entry and never warns. -/
theorem archiveIterate_none {α : Type} (i : Nat) (l : List α) :
    archiveIterate none i l = (l, false) := by
  induction l generalizing i with
  | nil => rfl
  | cons f rest ih => simp [archiveIterate, ih]

/-- Bounded enumeration takes the first `m - i` entries and warns
exactly when entries remain. -/
theorem archiveIterate_some {α : Type} (m : Int) (l : List α) :
    ∀ i : Nat, archiveIterate (some m) i l =
      (l.take (m - i).toNat, decide ((m - i).toNat < l.length)) := by
  induction l with
  | nil => intro i; simp [archiveIterate]
  | cons f rest ih =>
    intro i
    by_cases hm : m ≤ (i : Int)
    · have ht : (m - i).toNat = 0 := by omega
      simp [archiveIterate, hm, ht]
    · have ht : (m - i).toNat = (m - ((i : Nat) + 1 : Nat)).toNat + 1 := by
        push_cast
        omega
      rw [ht]
      simp only [archiveIterate, ih (i + 1)]
      rw [if_neg hm]
      simp only [List.take_succ_cons, List.length_cons]
      refine congrArg _ ?_
      rw [decide_eq_decide]
      omega

/-- Claim C2: the number of per-file groups processed by the archive
enumeration is governed by `maxNbFile`: quality at or below
`QUALITY_FASTEST` processes no entry; quality at or above
`QUALITY_BEST` processes every entry with no truncation warning;
strictly in between, the first `1 + floor(10 * quality)` entries are
processed and the warning is recorded exactly when more entries were
available. -/
theorem c2_quality_bound {α : Type} (meta : MultipleMetadata)
    (entries : List α) (h0 : 0 ≤ meta.base.quality)
    (h1 : meta.base.quality ≤ 1) :
    (meta.base.quality ≤ QUALITY_FASTEST →
      (ZipMetadata.extract meta entries).1 = []) ∧
    (QUALITY_BEST ≤ meta.base.quality →
      ZipMetadata.extract meta entries = (entries, false)) ∧
    (QUALITY_FASTEST < meta.base.quality →
      meta.base.quality < QUALITY_BEST →
      ZipMetadata.extract meta entries =
        (entries.take (1 + (Rat.floor (10 * meta.base.quality)).toNat),
         decide (1 + (Rat.floor (10 * meta.base.quality)).toNat <
           entries.length))) := by
  refine ⟨?_, ?_, ?_⟩
  · intro hq
    unfold ZipMetadata.extract maxNbFile
    rw [if_pos hq, archiveIterate_some]
    simp
  · intro hq
    have hq1 : (1 : Rat) ≤ meta.base.quality := hq
    unfold ZipMetadata.extract maxNbFile
    rw [if_neg (by
        intro hc
        have hc0 : meta.base.quality ≤ (0 : Rat) := hc
        linarith),
      if_pos hq, archiveIterate_none]
  · intro hl hu
    have hl0 : (0 : Rat) < meta.base.quality := hl
    unfold ZipMetadata.extract maxNbFile
    rw [if_neg (by
        intro hc
        have hc0 : meta.base.quality ≤ (0 : Rat) := hc
        linarith),
      if_neg (by
        intro hc
        have hc1 : (1 : Rat) ≤ meta.base.quality := hc
        have hu1 : meta.base.quality < (1 : Rat) := hu
        linarith)]
    have h10 : (0 : Rat) ≤ 10 * meta.base.quality := by
      have := mul_pos (show (0 : Rat) < 10 by norm_num) hl0
      linarith
    have hpy : pyInt (10 * meta.base.quality) =
        Rat.floor (10 * meta.base.quality) := by
      unfold pyInt
      rw [if_pos h10]
    rw [hpy, archiveIterate_some]
    have hf : 0 ≤ Rat.floor (10 * meta.base.quality) :=
      Rat.le_floor.mpr (by exact_mod_cast h10)
    have ht : (1 + Rat.floor (10 * meta.base.quality) - ((0 : Nat) : Int)).toNat =
        1 + (Rat.floor (10 * meta.base.quality)).toNat := by omega
    rw [ht]

/-- The exact product `10 * (1/4)` in normal form. -/
theorem ten_mul_quarter :
    (10 : Rat) * quarterQuality = ⟨5, 2, by decide, by decide⟩ := by
  rw [Rat.mul_def]
  decide

/-- Witness for C2: quality 1/4 on 50 available entries processes
exactly `1 + floor(2.5) = 3` groups and records the truncation
warning. -/
theorem c2_quality_bound_witness :
    (0 ≤ quarterMulti.base.quality ∧ quarterMulti.base.quality ≤ 1 ∧
     QUALITY_FASTEST < quarterMulti.base.quality ∧
     quarterMulti.base.quality < QUALITY_BEST) ∧
    (ZipMetadata.extract quarterMulti (List.range 50)).1.length = 3 ∧
    (ZipMetadata.extract quarterMulti (List.range 50)).2 = true := by
  have hfl : Rat.floor (10 * quarterMulti.base.quality) = 2 := by
    show Rat.floor (10 * quarterQuality) = 2
    rw [ten_mul_quarter]
    decide
  have h := (c2_quality_bound quarterMulti (List.range 50) (by decide)
    (by decide)).2.2 (by decide) (by decide)
  rw [hfl] at h
  refine ⟨⟨by decide, by decide, by decide, by decide⟩, ?_, ?_⟩
  · rw [h]
    decide
  · rw [h]
    decide

/-- Inserting into the stable sort permutes consing. -/
theorem insertData_perm (d : Data) (l : List Data) :
    (insertData d l).Perm (d :: l) := by
  induction l with
  | nil => exact List.Perm.refl _
  | cons e rest ih =>
    unfold insertData
    split
    · exact List.Perm.refl _
    · exact (ih.cons e).trans (List.Perm.swap d e rest)

/-- The stable sort is a permutation of the field list. -/
theorem sortData_perm (l : List Data) : (sortData l).Perm l := by
  induction l with
  | nil => exact List.Perm.refl _
  | cons d rest ih =>
    unfold sortData
    exact (insertData_perm d (sortData rest)).trans (ih.cons d)

/-- Membership is preserved by the stable sort. -/
theorem mem_sortData {d : Data} {l : List Data} :
    d ∈ sortData l ↔ d ∈ l :=
  (sortData_perm l).mem_iff

/-- A field contributes no line exactly when it has no values. -/
theorem dataLines_eq_nil (human : Bool) (lp : String) (d : Data) :
    dataLines human lp d = [] ↔ d.values = [] := by
  unfold dataLines
  exact List.map_eq_nil

/-- Under the `MAX_PRIORITY` cutoff nothing is cut, so the loop yields
no line exactly when every field has no values. -/
theorem exportLoop_nil_iff (prio : Int) (human : Bool) (lp : String)
    (l : List Data) (hp : ∀ d ∈ l, d.priority ≤ prio) :
    (exportLoop prio human lp l = [] ↔ ∀ d ∈ l, d.values = []) := by
  induction l with
  | nil => simp [exportLoop]
  | cons d rest ih =>
    have hd := hp d (List.mem_cons_self d rest)
    have hrest : ∀ e ∈ rest, e.priority ≤ prio := fun e he =>
      hp e (List.mem_cons_of_mem d he)
    unfold exportLoop
    rw [if_neg (not_lt.mpr hd)]
    rw [List.append_eq_nil, dataLines_eq_nil, ih hrest]
    constructor
    · rintro ⟨hv, hall⟩ e he
      rcases List.mem_cons.mp he with rfl | he2
      · exact hv
      · exact hall e he2
    · intro hall
      exact ⟨hall d (List.mem_cons_self d rest),
        fun e he => hall e (List.mem_cons_of_mem d he)⟩

/-- A field list is all-empty exactly when the document's truthiness is
false. -/
theorem nonzero_false_iff (m : Metadata) :
    Metadata.nonzero m = false ↔ ∀ d ∈ m.data, d.values = [] := by
  unfold Metadata.nonzero
  rw [List.any_eq_false]
  constructor
  · intro h d hd
    have := h d hd
    unfold Data.nonzero at this
    cases hv : d.values with
    | nil => rfl
    | cons a rest => rw [hv] at this; simp at this
  · intro h d hd
    unfold Data.nonzero
    rw [h d hd]
    simp

/-- `Metadata.exportPlaintext` with the default priority returns `None`
exactly when the per-field loop yields no line. -/
theorem metadata_export_none_iff_loop (m : Metadata) (human : Bool)
    (lp : String) (title : Option String) :
    (Metadata.exportPlaintext m none human lp title = none ↔
      exportLoop MAX_PRIORITY human lp (sortData m.data) = []) := by
  unfold Metadata.exportPlaintext
  dsimp only
  split
  · next hcond =>
    simp only [List.length_cons] at hcond
    constructor
    · intro hc
      exact absurd hc (by simp)
    · intro hc
      rw [hc] at hcond
      simp at hcond
  · next hcond =>
    simp only [List.length_cons, not_lt] at hcond
    constructor
    · intro _
      have hz : (exportLoop MAX_PRIORITY human lp (sortData m.data)).length = 0 := by
        omega
      exact List.length_eq_zero.mp hz
    · intro _
      rfl

/-- `Metadata.exportPlaintext` with the default priority returns `None`
exactly when the document is empty (all field priorities being within
the declared range). -/
theorem metadata_export_none_iff (m : Metadata) (human : Bool)
    (lp : String) (title : Option String)
    (hp : ∀ d ∈ m.data, d.priority ≤ MAX_PRIORITY) :
    (Metadata.exportPlaintext m none human lp title = none ↔
      Metadata.nonzero m = false) := by
  have hps : ∀ d ∈ sortData m.data, d.priority ≤ MAX_PRIORITY := fun d hd =>
    hp d (mem_sortData.mp hd)
  rw [metadata_export_none_iff_loop,
    exportLoop_nil_iff MAX_PRIORITY human lp (sortData m.data) hps,
    nonzero_false_iff]
  exact ⟨fun h d hd => h d (mem_sortData.mpr hd),
    fun h d hd => h d (mem_sortData.mp hd)⟩

/-- A successful `Metadata.exportPlaintext` is a header line followed
by at least one field line. -/
theorem metadata_export_some_shape (m : Metadata) (priority : Option Int)
    (human : Bool) (lp : String) (title : Option String)
    (lines : List String)
    (h : Metadata.exportPlaintext m priority human lp title = some lines) :
    ∃ t rest, lines = (t ++ ":") :: rest ∧ rest ≠ [] := by
  unfold Metadata.exportPlaintext at h
  dsimp only at h
  split at h
  · next hcond =>
    simp only [List.length_cons] at hcond
    refine ⟨_, _, (Option.some.inj h).symm, ?_⟩
    intro hc
    rw [hc] at hcond
    simp at hcond
  · exact absurd h (by simp)

/-- The group loop yields no line exactly when every child group is
empty (child field priorities being within the declared range). -/
theorem groupsPlaintext_nil_iff (human : Bool) (lp : String)
    (gs : List (String × Metadata))
    (hp : ∀ g ∈ gs, ∀ d ∈ g.2.data, d.priority ≤ MAX_PRIORITY) :
    (groupsPlaintext none human lp gs = [] ↔
      ∀ g ∈ gs, Metadata.nonzero g.2 = false) := by
  induction gs with
  | nil => simp [groupsPlaintext]
  | cons g rest ih =>
    obtain ⟨key, gm⟩ := g
    have hg : ∀ d ∈ gm.data, d.priority ≤ MAX_PRIORITY :=
      hp (key, gm) (List.mem_cons_self _ rest)
    have hrest : ∀ g2 ∈ rest, ∀ d ∈ g2.2.data, d.priority ≤ MAX_PRIORITY :=
      fun g2 hg2 => hp g2 (List.mem_cons_of_mem _ hg2)
    unfold groupsPlaintext
    rw [List.append_eq_nil, ih hrest]
    cases he : Metadata.exportPlaintext gm none human lp
        (if human then none else some key) with
    | some v =>
      obtain ⟨t, r, hv, hr⟩ :=
        metadata_export_some_shape gm none human lp _ v he
      have hnz : ¬ (Metadata.nonzero gm = false) := by
        intro hx
        have := (metadata_export_none_iff gm human lp
          (if human then none else some key) hg).mpr hx
        rw [he] at this
        exact Option.noConfusion this
      constructor
      · rintro ⟨hv2, _⟩
        rw [hv] at hv2
        exact absurd hv2 (by simp)
      · intro hall
        exact absurd (hall (key, gm) (List.mem_cons_self _ rest)) hnz
    | none =>
      have hnz : Metadata.nonzero gm = false :=
        (metadata_export_none_iff gm human lp
          (if human then none else some key) hg).mp he
      constructor
      · rintro ⟨_, hall⟩ g2 hg2
        rcases List.mem_cons.mp hg2 with rfl | h2
        · exact hnz
        · exact hall g2 h2
      · intro hall
        exact ⟨rfl, fun g2 h2 => hall g2 (List.mem_cons_of_mem _ h2)⟩

/-- A non-empty group rendering starts with a header line followed by
at least one more line. -/
theorem groupsPlaintext_shape (priority : Option Int) (human : Bool)
    (lp : String) (gs : List (String × Metadata))
    (h : groupsPlaintext priority human lp gs ≠ []) :
    ∃ t rest, groupsPlaintext priority human lp gs = (t ++ ":") :: rest ∧
      rest ≠ [] := by
  induction gs with
  | nil => simp [groupsPlaintext] at h
  | cons g rest ih =>
    obtain ⟨key, gm⟩ := g
    unfold groupsPlaintext at h ⊢
    cases he : Metadata.exportPlaintext gm priority human lp
        (if human then none else some key) with
    | some v =>
      obtain ⟨t, r, hv, hr⟩ :=
        metadata_export_some_shape gm priority human lp _ v he
      dsimp only at h ⊢
      rw [hv]
      refine ⟨t, r ++ groupsPlaintext priority human lp rest, by simp, ?_⟩
      intro hc
      rw [List.append_eq_nil] at hc
      exact hr hc.1
    | none =>
      rw [he] at h
      dsimp only at h ⊢
      exact ih h

/-- A multi-document is falsy exactly when its own fields and every
child group are empty. -/
theorem multiple_nonzero_false_iff (m : MultipleMetadata) :
    MultipleMetadata.nonzero m = false ↔
      (Metadata.nonzero m.base = false ∧
        ∀ g ∈ m.groups, Metadata.nonzero g.2 = false) := by
  unfold MultipleMetadata.nonzero
  constructor
  · intro h
    have hb : Metadata.nonzero m.base = false := by
      cases hx : Metadata.nonzero m.base with
      | false => rfl
      | true => rw [hx] at h; simp at h
    refine ⟨hb, ?_⟩
    rw [hb] at h
    simp only [Bool.false_or] at h
    rw [List.any_eq_false] at h
    intro g hgm
    simpa using h g hgm
  · rintro ⟨hb, hall⟩
    rw [hb]
    simp only [Bool.false_or]
    rw [List.any_eq_false]
    intro g hgm
    simp [hall g hgm]

/-- Claim C1: with default arguments, a document's plaintext export is
`None` exactly when the document is empty — every field valueless and,
for a multi-document, every child group empty as well — and otherwise
it is a header line followed by at least one further line.  The last
conjunct states the same `None`-iff-empty fact for a plain (single)
document's export. -/
theorem c1_export_none_iff_empty (m : MultipleMetadata)
    (hb : ∀ d ∈ m.base.data, d.priority ≤ MAX_PRIORITY)
    (hg : ∀ g ∈ m.groups, ∀ d ∈ g.2.data, d.priority ≤ MAX_PRIORITY) :
    (MultipleMetadata.exportPlaintext m none true "- " = none ↔
      MultipleMetadata.nonzero m = false) ∧
    (∀ lines, MultipleMetadata.exportPlaintext m none true "- " = some lines →
      ∃ t rest, lines = (t ++ ":") :: rest ∧ rest ≠ []) ∧
    (∀ mm : Metadata, (∀ d ∈ mm.data, d.priority ≤ MAX_PRIORITY) →
      (Metadata.exportPlaintext mm none true "- " none = none ↔
        Metadata.nonzero mm = false)) := by
  have hbase := metadata_export_none_iff m.base true "- " none hb
  refine ⟨?_, ?_, ?_⟩
  · unfold MultipleMetadata.exportPlaintext
    dsimp only
    rw [multiple_nonzero_false_iff]
    cases he : Metadata.exportPlaintext m.base none true "- " none with
    | some c =>
      obtain ⟨t, r, hc, hr⟩ :=
        metadata_export_some_shape m.base none true "- " none c he
      have hbn : ¬ (Metadata.nonzero m.base = false) := by
        intro hx
        have := hbase.mpr hx
        rw [he] at this
        exact Option.noConfusion this
      constructor
      · intro hcontra
        split at hcontra
        · exact absurd hcontra (by simp)
        · next hcond =>
          exfalso
          apply hcond
          rw [hc]
          simp
      · rintro ⟨hbf, _⟩
        exact absurd hbf hbn
    | none =>
      have hbf : Metadata.nonzero m.base = false := hbase.mp he
      simp only [List.nil_append]
      constructor
      · intro h
        refine ⟨hbf, ?_⟩
        split at h
        · exact absurd h (by simp)
        · next hcond =>
          have hgl : groupsPlaintext none true "- " m.groups = [] := by
            simp only [not_lt] at hcond
            exact List.length_eq_zero.mp (Nat.le_zero.mp hcond)
          exact (groupsPlaintext_nil_iff true "- " m.groups hg).mp hgl
      · rintro ⟨_, hall⟩
        have hgl : groupsPlaintext none true "- " m.groups = [] :=
          (groupsPlaintext_nil_iff true "- " m.groups hg).mpr hall
        rw [hgl]
        simp
  · intro lines hl
    unfold MultipleMetadata.exportPlaintext at hl
    dsimp only at hl
    cases he : Metadata.exportPlaintext m.base none true "- " none with
    | some c =>
      obtain ⟨t, r, hc, hr⟩ :=
        metadata_export_some_shape m.base none true "- " none c he
      rw [he] at hl
      split at hl
      · have hlines := Option.some.inj hl
        rw [hc] at hlines
        refine ⟨t, r ++ groupsPlaintext none true "- " m.groups, ?_, ?_⟩
        · rw [← hlines]
          simp
        · intro hz
          rw [List.append_eq_nil] at hz
          exact hr hz.1
      · exact absurd hl (by simp)
    | none =>
      rw [he] at hl
      simp only [List.nil_append] at hl
      split at hl
      · next hcond =>
        have hlines := Option.some.inj hl
        have hne : groupsPlaintext none true "- " m.groups ≠ [] := by
          intro hz
          rw [hz] at hcond
          simp at hcond
        obtain ⟨t, r, hgl, hr⟩ :=
          groupsPlaintext_shape none true "- " m.groups hne
        exact ⟨t, r, by rw [← hlines, hgl], hr⟩
      · exact absurd hl (by simp)
  · intro mm hpm
    exact metadata_export_none_iff mm true "- " none hpm

/-- Witness for C1 at a concrete multi-document with one non-empty
child group and at a concrete empty one. -/
theorem c1_export_none_iff_empty_witness :
    (∀ d ∈ groupedMulti.base.data, d.priority ≤ MAX_PRIORITY) ∧
    (MultipleMetadata.exportPlaintext groupedMulti none true "- " = none ↔
      MultipleMetadata.nonzero groupedMulti = false) ∧
    (MultipleMetadata.exportPlaintext sampleMulti none true "- " = none ↔
      MultipleMetadata.nonzero sampleMulti = false) :=
  ⟨by decide,
   (c1_export_none_iff_empty groupedMulti (by decide) (by decide)).1,
   (c1_export_none_iff_empty sampleMulti (by decide) (by decide)).1⟩
